import Mathlib

/-!
# Verification of a LeNet-5 implementation

Shallow embedding of the model code in `posts/lenet.ipynb`: the custom
subsampling layer `LenetPool` (`nn.LPPool2d(1, k, stride) ∘ nn.Linear`),
the custom activation `LenetSigmoid` (`nn.Linear(bias=False)`, `tanh`,
scaling by the constant `A = 1.7159`), the seven-stage `Lenet` network,
and the stage-by-stage shape-test utility `run_tests`.

Two complementary models are developed:
* a *shape-level* model (`Shape → Option Shape` per layer), mirroring the
  dynamic shape semantics of the PyTorch operations used, including their
  failure conditions;
* a *value-level* model over `ℝ` (dependently-sized tensors as functions
  from `Fin` indices) and over `ℚ` (lists, for the executable pooling
  facts), mirroring the numerics of each layer.
-/

namespace Lenet

/-! ## Shape-level model of the layers -/

/-- A dynamic tensor shape, as PyTorch reports it: a list of dimension sizes. -/
abbrev Shape := List Nat

/-- Shape semantics of `nn.Conv2d(cin, cout, k)` (stride 1, no padding), as used
for `c1` and `c3`: requires a rank-4 input with channel count `cin` and spatial
sizes at least `k`; each spatial size shrinks by `k - 1`. -/
def conv2dShape (cin cout k : Nat) : Shape → Option Shape
  | [b, c, h, w] =>
    if c = cin ∧ k ≤ h ∧ k ≤ w then some [b, cout, h - k + 1, w - k + 1] else none
  | _ => none

/-- Shape semantics of `nn.Linear(inF, outF)`: acts on the last dimension of an
input of any positive rank, mapping `(*, inF)` to `(*, outF)`; any other last
dimension is a matmul shape error. -/
def linearShape (inF outF : Nat) (s : Shape) : Option Shape :=
  match s.reverse with
  | [] => none
  | d :: rest => if d = inF then some ((outF :: rest).reverse) else none

/-- Shape semantics of `nn.LPPool2d(1, k, stride=st)` with the default
`ceil_mode=False`: each spatial output size is `(n - k) / st + 1` (floor
division), provided the kernel fits at all. -/
def lpPoolShape (k st : Nat) : Shape → Option Shape
  | [b, c, h, w] =>
    if k ≤ h ∧ k ≤ w then some [b, c, (h - k) / st + 1, (w - k) / st + 1] else none
  | _ => none

/-- Shape semantics of `nn.Flatten()` (default `start_dim=1`): keeps the batch
dimension and flattens the rest into one dimension. -/
def flattenShape : Shape → Option Shape
  | b :: d :: rest => some [b, (d :: rest).prod]
  | _ => none

/-- Shape semantics of `LenetSigmoid(inF, outF).forward`: the learned linear
map `S` acts on the last dimension; `tanh` and the scaling by `A` are
shape-preserving. -/
def lenetSigmoidShape (inF outF : Nat) (s : Shape) : Option Shape :=
  linearShape inF outF s

/-- Shape semantics of `LenetPool(k, st, inF, outF).forward`: the `LPPool2d`
sum-pooling followed by `nn.Linear(inF, outF)` on the last dimension. -/
def lenetPoolShape (k st inF outF : Nat) (s : Shape) : Option Shape :=
  (lpPoolShape k st s).bind (linearShape inF outF)

/-- Shape semantics of `Lenet(num_classes).forward`: the `nn.Sequential` chain
`c1, a1, s2, a2, c3, a3, s4, a4, flatten, f5, a5, f6, a6, f7` from the
source's `Lenet.__init__`. -/
def lenetShapeForward (n : Nat) (s : Shape) : Option Shape :=
  (conv2dShape 1 6 5 s).bind (lenetSigmoidShape 28 28)
    |>.bind (lenetPoolShape 2 2 14 14) |>.bind (lenetSigmoidShape 14 14)
    |>.bind (conv2dShape 6 16 5) |>.bind (lenetSigmoidShape 10 10)
    |>.bind (lenetPoolShape 2 2 5 5) |>.bind (lenetSigmoidShape 5 5)
    |>.bind flattenShape
    |>.bind (linearShape 400 120) |>.bind (lenetSigmoidShape 120 120)
    |>.bind (linearShape 120 84) |>.bind (lenetSigmoidShape 84 84)
    |>.bind (linearShape 84 n)

/-! ## Value-level list model of the pooling layer (over `ℚ`)

`LPPool2d` acts independently on each `(batch, channel)` slice, so the model
works on a single 2-D spatial map, stored row-major as a list of rows. -/

/-- A 2-D spatial map (one batch element, one channel), row-major. -/
abbrev Mat := List (List ℚ)

/-- Sum of the `k × k` window of `t` whose top-left corner is `(r, c)`. -/
def windowSum (t : Mat) (r c k : Nat) : ℚ :=
  (((t.drop r).take k).map fun row => ((row.drop c).take k).sum).sum

/-- Value semantics of `nn.LPPool2d(1, k, stride=st)`: the documented operation
is `(∑_{x ∈ window} x^p)^(1/p)`, which at `norm_type = 1` is exactly the window
sum; with `ceil_mode=False` each output size is `(n - k) / st + 1`, and the
operation fails only when the kernel does not fit at all. -/
def lpPool2dP1 (k st : Nat) (t : Mat) : Option Mat :=
  if k ≤ t.length ∧ k ≤ (t.headD []).length then
    some ((List.range ((t.length - k) / st + 1)).map fun i =>
      (List.range (((t.headD []).length - k) / st + 1)).map fun j =>
        windowSum t (st * i) (st * j) k)
  else none

/-- Dot product of two lists (zipped, so extra entries are ignored). -/
def dotQ (u v : List ℚ) : ℚ :=
  ((u.zip v).map fun p => p.1 * p.2).sum

/-- Value semantics of `nn.Linear(inF, outF)` applied to the last dimension of
a 2-D map: each row `x` becomes `W·x + b`; a row whose width differs from
`in_features` is a matmul shape error. -/
def linearLastDim (inF : Nat) (W : List (List ℚ)) (bv : List ℚ) (t : Mat) :
    Option Mat :=
  if t.all fun row => row.length = inF then
    some (t.map fun row => (W.zip bv).map fun p => dotQ p.1 row + p.2)
  else none

/-- Value semantics of `LenetPool(k, st, inF, outF).forward` on one channel
slice: `LPPool2d(1, k, stride=st)` then `nn.Linear(inF, outF)`. -/
def lenetPoolFwd (k st inF : Nat) (W : List (List ℚ)) (bv : List ℚ) (t : Mat) :
    Option Mat :=
  (lpPool2dP1 k st t).bind (linearLastDim inF W bv)

/-- A `(H, W) = (15, 28)` all-zero channel slice: the odd-height input of the
odd-dimension claim, with the network's own S2 width `W = 28`. -/
def oddHeightInput : Mat := List.replicate 15 (List.replicate 28 (0 : ℚ))

/-- A concrete `14 × 14` weight setting for the S2 remap. -/
def s2Weight : List (List ℚ) := List.replicate 14 (List.replicate 14 0)

/-- A concrete bias setting for the S2 remap. -/
def s2Bias : List ℚ := List.replicate 14 0

/-- The first two elements of a list of length at least two. -/
lemma take_two_eq {α : Type} (d : α) (l : List α) (h : 1 < l.length) :
    l.take 2 = [l.getD 0 d, l.getD 1 d] := by
  cases l with
  | nil => simp at h
  | cons a l' =>
    cases l' with
    | nil => simp at h
    | cons b rest => rfl

/-- The two elements of a list starting at position `c`. -/
lemma drop_take_two {α : Type} (d : α) (l : List α) (c : Nat)
    (h : c + 1 < l.length) :
    (l.drop c).take 2 = [l.getD c d, l.getD (c + 1) d] := by
  have h2 : 1 < (l.drop c).length := by
    simp only [List.length_drop]; omega
  rw [take_two_eq d _ h2]
  have e0 : (l.drop c).getD 0 d = l.getD c d := by
    rw [List.getD_eq_getElem _ _ (by simp only [List.length_drop]; omega),
      List.getD_eq_getElem _ _ (show c < l.length by omega), List.getElem_drop]
    simp
  have e1 : (l.drop c).getD 1 d = l.getD (c + 1) d := by
    rw [List.getD_eq_getElem _ _ (by simp only [List.length_drop]; omega),
      List.getD_eq_getElem _ _ h, List.getElem_drop]
  rw [e0, e1]

/-- Taking two elements of a list starting at position `c` and summing them
picks out the entries at `c` and `c + 1`. -/
lemma take_two_drop_sum (row : List ℚ) (c : Nat) (h : c + 1 < row.length) :
    ((row.drop c).take 2).sum = row.getD c 0 + row.getD (c + 1) 0 := by
  rw [drop_take_two 0 row c h]
  simp

/-- A `2 × 2` window sum is the sum of the four entries at its corners. -/
lemma windowSum_two (t : Mat) (r c : Nat) (hr : r + 1 < t.length)
    (hc1 : c + 1 < (t.getD r []).length) (hc2 : c + 1 < (t.getD (r + 1) []).length) :
    windowSum t r c 2 =
      (t.getD r []).getD c 0 + (t.getD r []).getD (c + 1) 0 +
        ((t.getD (r + 1) []).getD c 0 + (t.getD (r + 1) []).getD (c + 1) 0) := by
  unfold windowSum
  rw [drop_take_two ([] : List ℚ) t r hr]
  simp only [List.map_cons, List.map_nil, List.sum_cons, List.sum_nil, add_zero]
  rw [take_two_drop_sum _ _ hc1, take_two_drop_sum _ _ hc2]

/-- The `(i, j)` entry of the `2 × 2`, stride-2 sum-pool output is the window
sum anchored at `(2i, 2j)`. -/
lemma lpPool2dP1_entry (t : Mat) (i j : Nat)
    (hi : 2 * i + 1 < t.length) (hj : 2 * j + 1 < (t.headD []).length) :
    (((lpPool2dP1 2 2 t).getD []).getD i []).getD j 0 =
      windowSum t (2 * i) (2 * j) 2 := by
  have hcond : 2 ≤ t.length ∧ 2 ≤ (t.headD []).length := by omega
  unfold lpPool2dP1
  rw [if_pos hcond, Option.getD_some]
  have hi' : i < ((List.range ((t.length - 2) / 2 + 1)).map fun i =>
      (List.range (((t.headD []).length - 2) / 2 + 1)).map fun j =>
        windowSum t (2 * i) (2 * j) 2).length := by
    simp only [List.length_map, List.length_range]; omega
  rw [List.getD_eq_getElem _ _ hi', List.getElem_map, List.getElem_range,
    List.getD_eq_getElem _ _
      (by simp only [List.length_map, List.length_range]; omega),
    List.getElem_map, List.getElem_range]

/-! ## Value-level tensor model over `ℝ` -/

/-- A rank-4 tensor of shape `(b, c, h, w)`. -/
abbrev Ten4 (b c h w : Nat) := Fin b → Fin c → Fin h → Fin w → ℝ

/-- A rank-2 tensor of shape `(b, n)`. -/
abbrev Ten2 (b n : Nat) := Fin b → Fin n → ℝ

/-- The fixed output scale of `LenetSigmoid`: `self.A = 1.7159`, a constant of
the class, not a learned parameter. -/
noncomputable def A : ℝ := 1.7159

/-- `nn.Conv2d(cin, cout, k)` with stride 1 and no padding: cross-correlation
over all input channels plus a per-output-channel bias. -/
noncomputable def conv2d {b cin h w : Nat} (cout k : Nat)
    (hkh : k ≤ h) (hkw : k ≤ w)
    (wt : Fin cout → Fin cin → Fin k → Fin k → ℝ) (bs : Fin cout → ℝ)
    (x : Ten4 b cin h w) : Ten4 b cout (h - k + 1) (w - k + 1) :=
  fun bb o i j => bs o + ∑ c, ∑ di, ∑ dj,
    wt o c di dj *
      x bb c ⟨i.1 + di.1, by have hi := i.2; have hd := di.2; omega⟩
        ⟨j.1 + dj.1, by have hj := j.2; have hd := dj.2; omega⟩

/-- `nn.Linear(w, m)` acting on the last dimension of a rank-4 tensor. -/
noncomputable def linear4 {b c h w m : Nat} (wt : Fin m → Fin w → ℝ)
    (bs : Fin m → ℝ) (x : Ten4 b c h w) : Ten4 b c h m :=
  fun bb cc i o => bs o + ∑ j, wt o j * x bb cc i j

/-- `nn.Linear(w, m, bias=False)` acting on the last dimension: the learned
map `S` of `LenetSigmoid` — weights only, no additive bias. -/
noncomputable def linear4NoBias {b c h w m : Nat} (wt : Fin m → Fin w → ℝ)
    (x : Ten4 b c h w) : Ten4 b c h m :=
  fun bb cc i o => ∑ j, wt o j * x bb cc i j

/-- Elementwise `nn.Tanh()`. -/
noncomputable def tanh4 {b c h w : Nat} (x : Ten4 b c h w) : Ten4 b c h w :=
  fun bb cc i j => Real.tanh (x bb cc i j)

/-- Elementwise multiplication by a scalar. -/
noncomputable def scale4 {b c h w : Nat} (a : ℝ) (x : Ten4 b c h w) :
    Ten4 b c h w :=
  fun bb cc i j => a * x bb cc i j

/-- `LenetSigmoid.forward` on rank-4 input, exactly as the source sequences it:
`x = self.S(x)`, then `x = self.act(x)`, then `x = self.A * x`. -/
noncomputable def lenetSigmoid4 {b c h w m : Nat} (S : Fin m → Fin w → ℝ)
    (x : Ten4 b c h w) : Ten4 b c h m :=
  scale4 A (tanh4 (linear4NoBias S x))

/-- Following the spec's words, for comparison with the source's
`LenetSigmoid.forward`: the unit computes `A · tanh(S · x)` — a learned
weights-only linear transform, the saturating nonlinearity, then the fixed
constant scale — with no bias added before the nonlinearity and no offset
added after the scaling. -/
noncomputable def scaledActivationSpec {b c h w m : Nat}
    (S : Fin m → Fin w → ℝ) (x : Ten4 b c h w) : Ten4 b c h m :=
  fun bb cc i o => A * Real.tanh (∑ j, S o j * x bb cc i j)

/-- `nn.LPPool2d(1, 2, stride=2)` on rank-4 input: each non-overlapping `2×2`
window is summed; spatial sizes go from `(h, w)` to
`((h-2)/2 + 1, (w-2)/2 + 1)`. -/
noncomputable def sumPool4 {b c h w : Nat} (hh : 2 ≤ h) (hw : 2 ≤ w)
    (x : Ten4 b c h w) : Ten4 b c ((h - 2) / 2 + 1) ((w - 2) / 2 + 1) :=
  fun bb cc i j =>
    x bb cc ⟨2 * i.1, by have := i.2; omega⟩ ⟨2 * j.1, by have := j.2; omega⟩ +
    x bb cc ⟨2 * i.1, by have := i.2; omega⟩
      ⟨2 * j.1 + 1, by have := j.2; omega⟩ +
    x bb cc ⟨2 * i.1 + 1, by have := i.2; omega⟩
      ⟨2 * j.1, by have := j.2; omega⟩ +
    x bb cc ⟨2 * i.1 + 1, by have := i.2; omega⟩
      ⟨2 * j.1 + 1, by have := j.2; omega⟩

/-- `LenetPool(2, 2, inF, outF).forward` on rank-4 input: the sum-pool then
`nn.Linear` on the last dimension, which must equal the post-pool width. -/
noncomputable def lenetPool4 {b c h w m : Nat} (hh : 2 ≤ h) (hw : 2 ≤ w)
    (wt : Fin m → Fin ((w - 2) / 2 + 1) → ℝ) (bs : Fin m → ℝ)
    (x : Ten4 b c h w) : Ten4 b c ((h - 2) / 2 + 1) m :=
  linear4 wt bs (sumPool4 hh hw x)

/-- `nn.Flatten()` (default `start_dim=1`), row-major as in PyTorch. -/
noncomputable def flatten4 {b c h w : Nat} (hh : 0 < h) (hw : 0 < w)
    (x : Ten4 b c h w) : Ten2 b (c * h * w) :=
  fun bb k => x bb
    ⟨k.1 / (h * w), by
      rw [Nat.div_lt_iff_lt_mul (Nat.mul_pos hh hw), ← mul_assoc]
      exact k.2⟩
    ⟨k.1 % (h * w) / w, by
      rw [Nat.div_lt_iff_lt_mul hw]
      exact Nat.mod_lt _ (Nat.mul_pos hh hw)⟩
    ⟨k.1 % w, Nat.mod_lt _ hw⟩

/-- `nn.Linear(n, m)` on a rank-2 tensor. -/
noncomputable def linear2 {b n m : Nat} (wt : Fin m → Fin n → ℝ)
    (bs : Fin m → ℝ) (x : Ten2 b n) : Ten2 b m :=
  fun bb o => bs o + ∑ j, wt o j * x bb j

/-- `nn.Linear(n, m, bias=False)` on a rank-2 tensor. -/
noncomputable def linear2NoBias {b n m : Nat} (wt : Fin m → Fin n → ℝ)
    (x : Ten2 b n) : Ten2 b m :=
  fun bb o => ∑ j, wt o j * x bb j

/-- Elementwise `nn.Tanh()` on a rank-2 tensor. -/
noncomputable def tanh2 {b n : Nat} (x : Ten2 b n) : Ten2 b n :=
  fun bb j => Real.tanh (x bb j)

/-- Elementwise scaling on a rank-2 tensor. -/
noncomputable def scale2 {b n : Nat} (a : ℝ) (x : Ten2 b n) : Ten2 b n :=
  fun bb j => a * x bb j

/-- `LenetSigmoid.forward` on rank-2 input (the dense stages `a5`, `a6`). -/
noncomputable def lenetSigmoid2 {b n m : Nat} (S : Fin m → Fin n → ℝ)
    (x : Ten2 b n) : Ten2 b m :=
  scale2 A (tanh2 (linear2NoBias S x))

/-- The learned parameters created by `Lenet.__init__(num_classes)`: weights
and biases of `c1, c3, f5, f6, f7`, the `S` weights of the six `LenetSigmoid`
instances, and the remap weights/biases of the two `LenetPool` instances. -/
structure LenetParams (n : Nat) where
  c1w : Fin 6 → Fin 1 → Fin 5 → Fin 5 → ℝ
  c1b : Fin 6 → ℝ
  a1S : Fin 28 → Fin 28 → ℝ
  s2w : Fin 14 → Fin 14 → ℝ
  s2b : Fin 14 → ℝ
  a2S : Fin 14 → Fin 14 → ℝ
  c3w : Fin 16 → Fin 6 → Fin 5 → Fin 5 → ℝ
  c3b : Fin 16 → ℝ
  a3S : Fin 10 → Fin 10 → ℝ
  s4w : Fin 5 → Fin 5 → ℝ
  s4b : Fin 5 → ℝ
  a4S : Fin 5 → Fin 5 → ℝ
  f5w : Fin 120 → Fin 400 → ℝ
  f5b : Fin 120 → ℝ
  a5S : Fin 120 → Fin 120 → ℝ
  f6w : Fin 84 → Fin 120 → ℝ
  f6b : Fin 84 → ℝ
  a6S : Fin 84 → Fin 84 → ℝ
  f7w : Fin n → Fin 84 → ℝ
  f7b : Fin n → ℝ

/-- The `nn.Sequential` pipeline of `Lenet.forward` up to and including `a6`:
`c1, a1, s2, a2, c3, a3, s4, a4, flatten, f5, a5, f6, a6`. -/
noncomputable def lenetUpToA6 {b n : Nat} (p : LenetParams n)
    (x : Ten4 b 1 32 32) : Ten2 b 84 :=
  let x1 : Ten4 b 6 28 28 := conv2d 6 5 (by decide) (by decide) p.c1w p.c1b x
  let x2 : Ten4 b 6 28 28 := lenetSigmoid4 p.a1S x1
  let x3 : Ten4 b 6 14 14 :=
    lenetPool4 (by decide) (by decide) p.s2w p.s2b x2
  let x4 : Ten4 b 6 14 14 := lenetSigmoid4 p.a2S x3
  let x5 : Ten4 b 16 10 10 :=
    conv2d 16 5 (by decide) (by decide) p.c3w p.c3b x4
  let x6 : Ten4 b 16 10 10 := lenetSigmoid4 p.a3S x5
  let x7 : Ten4 b 16 5 5 :=
    lenetPool4 (by decide) (by decide) p.s4w p.s4b x6
  let x8 : Ten4 b 16 5 5 := lenetSigmoid4 p.a4S x7
  let x9 : Ten2 b 400 := flatten4 (by decide) (by decide) x8
  let x10 : Ten2 b 120 := linear2 p.f5w p.f5b x9
  let x11 : Ten2 b 120 := lenetSigmoid2 p.a5S x10
  let x12 : Ten2 b 84 := linear2 p.f6w p.f6b x11
  lenetSigmoid2 p.a6S x12

/-- `Lenet.forward`: the full `nn.Sequential` chain — `f7` applied last, with
no activation after it. -/
noncomputable def lenetForward {b n : Nat} (p : LenetParams n)
    (x : Ten4 b 1 32 32) : Ten2 b n :=
  linear2 p.f7w p.f7b (lenetUpToA6 p x)

/-- The `run_tests` iteration: `for layer in model.layers: x = layer(x)` —
each of the 14 layers applied one at a time, in list order. -/
noncomputable def runTestsForward {b n : Nat} (p : LenetParams n)
    (x : Ten4 b 1 32 32) : Ten2 b n :=
  linear2 p.f7w p.f7b
    (lenetSigmoid2 p.a6S
      (linear2 p.f6w p.f6b
        (lenetSigmoid2 p.a5S
          (linear2 p.f5w p.f5b
            (flatten4 (by decide) (by decide)
              (lenetSigmoid4 p.a4S
                (lenetPool4 (by decide) (by decide) p.s4w p.s4b
                  (lenetSigmoid4 p.a3S
                    (conv2d 16 5 (by decide) (by decide) p.c3w p.c3b
                      (lenetSigmoid4 p.a2S
                        (lenetPool4 (by decide) (by decide) p.s2w p.s2b
                          (lenetSigmoid4 p.a1S
                            (conv2d 6 5 (by decide) (by decide)
                              p.c1w p.c1b x)))))))))))))

/-- The spec's "plain affine transform" of a width-84 input vector:
`weight · input + bias`. -/
noncomputable def manualAffine {n : Nat} (wt : Fin n → Fin 84 → ℝ)
    (bs : Fin n → ℝ) (v : Fin 84 → ℝ) : Fin n → ℝ :=
  fun i => (∑ j, wt i j * v j) + bs i

/-! ## Construction-time model

`nn.Linear`/`nn.Conv2d` allocate their parameter tensors with the given sizes;
the allocation raises only for a *negative* dimension size (a zero-sized
dimension is legal in PyTorch and yields a usable, zero-width layer). -/

/-- Construction of `nn.Linear(inF, outF)`: fails exactly when a requested
dimension is negative. -/
def linearInit (inF outF : Int) : Option Unit :=
  if 0 ≤ inF ∧ 0 ≤ outF then some () else none

/-- Construction of `nn.Conv2d(cin, cout, k)`. -/
def conv2dInit (cin cout k : Int) : Option Unit :=
  if 0 ≤ cin ∧ 0 ≤ cout ∧ 0 ≤ k then some () else none

/-- Construction of `LenetSigmoid(inF, outF)`: allocates `S = nn.Linear(inF,
outF, bias=False)`. -/
def lenetSigmoidInit (inF outF : Int) : Option Unit :=
  linearInit inF outF

/-- Construction of `LenetPool(k, st, inF, outF)`: `LPPool2d` is parameter-free;
the remap is `nn.Linear(inF, outF)`. -/
def lenetPoolInit (kernel stride inF outF : Int) : Option Unit :=
  linearInit inF outF

/-- Construction `Lenet.__init__(num_classes)`: every sub-layer has fixed
sizes except `f7 = nn.Linear(84, num_classes)`. -/
def lenetInit (numClasses : Int) : Option Unit := do
  let _ ← conv2dInit 1 6 5
  let _ ← lenetSigmoidInit 28 28
  let _ ← lenetPoolInit 2 2 14 14
  let _ ← lenetSigmoidInit 14 14
  let _ ← conv2dInit 6 16 5
  let _ ← lenetSigmoidInit 10 10
  let _ ← lenetPoolInit 2 2 5 5
  let _ ← lenetSigmoidInit 5 5
  let _ ← linearInit 400 120
  let _ ← lenetSigmoidInit 120 120
  let _ ← linearInit 120 84
  let _ ← lenetSigmoidInit 84 84
  linearInit 84 numClasses

end Lenet

namespace Lenet

/-- `tanh` is bounded above by 1. -/
lemma tanh_lt_one (t : ℝ) : Real.tanh t < 1 := by
  rw [Real.tanh_eq_sinh_div_cosh, div_lt_one (Real.cosh_pos t)]
  exact Real.sinh_lt_cosh t

/-- `tanh` is bounded below by -1. -/
lemma neg_one_lt_tanh (t : ℝ) : -1 < Real.tanh t := by
  rw [Real.tanh_eq_sinh_div_cosh, lt_div_iff (Real.cosh_pos t)]
  have h := Real.cosh_add_sinh t
  have he := Real.exp_pos t
  linarith

/-- `tanh` is strictly monotonically increasing. -/
lemma tanh_strictMono : StrictMono Real.tanh := by
  intro a b hab
  rw [Real.tanh_eq_sinh_div_cosh, Real.tanh_eq_sinh_div_cosh,
    div_lt_div_iff (Real.cosh_pos a) (Real.cosh_pos b)]
  have h := Real.sinh_sub b a
  have hpos : 0 < Real.sinh (b - a) := by
    have hs := Real.sinh_strictMono (show (0 : ℝ) < b - a by linarith)
    rwa [Real.sinh_zero] at hs
  have key : 0 < Real.sinh b * Real.cosh a - Real.cosh b * Real.sinh a :=
    h ▸ hpos
  linarith [mul_comm (Real.cosh b) (Real.sinh a)]

/-- The scale constant is positive. -/
lemma A_pos : (0 : ℝ) < A := by norm_num [A]

/-- C1: for every batch size `b ≥ 1` and every `num_classes`, feeding a shape
`(b, 1, 32, 32)` through the network's stages in order yields exactly the §4.3
table of per-stage shapes — `(b,6,28,28)` after C1/A1, `(b,6,14,14)` after
S2/A2, `(b,16,10,10)` after C3/A3, `(b,16,5,5)` after S4/A4, `(b,400)` after
Flatten, `(b,120)` after F5/A5, `(b,84)` after F6/A6 — terminating in
`(b, num_classes)` after F7. -/
theorem claim1_shape_propagation (b n : Nat) (hb : 1 ≤ b) :
    conv2dShape 1 6 5 [b, 1, 32, 32] = some [b, 6, 28, 28] ∧
    lenetSigmoidShape 28 28 [b, 6, 28, 28] = some [b, 6, 28, 28] ∧
    lenetPoolShape 2 2 14 14 [b, 6, 28, 28] = some [b, 6, 14, 14] ∧
    lenetSigmoidShape 14 14 [b, 6, 14, 14] = some [b, 6, 14, 14] ∧
    conv2dShape 6 16 5 [b, 6, 14, 14] = some [b, 16, 10, 10] ∧
    lenetSigmoidShape 10 10 [b, 16, 10, 10] = some [b, 16, 10, 10] ∧
    lenetPoolShape 2 2 5 5 [b, 16, 10, 10] = some [b, 16, 5, 5] ∧
    lenetSigmoidShape 5 5 [b, 16, 5, 5] = some [b, 16, 5, 5] ∧
    flattenShape [b, 16, 5, 5] = some [b, 400] ∧
    linearShape 400 120 [b, 400] = some [b, 120] ∧
    lenetSigmoidShape 120 120 [b, 120] = some [b, 120] ∧
    linearShape 120 84 [b, 120] = some [b, 84] ∧
    lenetSigmoidShape 84 84 [b, 84] = some [b, 84] ∧
    linearShape 84 n [b, 84] = some [b, n] ∧
    lenetShapeForward n [b, 1, 32, 32] = some [b, n] := by
  refine ⟨?_, ?_, ?_, ?_, ?_, ?_, ?_, ?_, ?_, ?_, ?_, ?_, ?_, ?_, ?_⟩ <;>
    simp [conv2dShape, lenetSigmoidShape, lenetPoolShape, lpPoolShape, linearShape,
      flattenShape, lenetShapeForward, Option.bind]

/-- Witness for C1 at `b = 1`, `num_classes = 10`. -/
theorem claim1_shape_propagation_witness :
    conv2dShape 1 6 5 [1, 1, 32, 32] = some [1, 6, 28, 28] ∧
    lenetSigmoidShape 28 28 [1, 6, 28, 28] = some [1, 6, 28, 28] ∧
    lenetPoolShape 2 2 14 14 [1, 6, 28, 28] = some [1, 6, 14, 14] ∧
    lenetSigmoidShape 14 14 [1, 6, 14, 14] = some [1, 6, 14, 14] ∧
    conv2dShape 6 16 5 [1, 6, 14, 14] = some [1, 16, 10, 10] ∧
    lenetSigmoidShape 10 10 [1, 16, 10, 10] = some [1, 16, 10, 10] ∧
    lenetPoolShape 2 2 5 5 [1, 16, 10, 10] = some [1, 16, 5, 5] ∧
    lenetSigmoidShape 5 5 [1, 16, 5, 5] = some [1, 16, 5, 5] ∧
    flattenShape [1, 16, 5, 5] = some [1, 400] ∧
    linearShape 400 120 [1, 400] = some [1, 120] ∧
    lenetSigmoidShape 120 120 [1, 120] = some [1, 120] ∧
    linearShape 120 84 [1, 120] = some [1, 84] ∧
    lenetSigmoidShape 84 84 [1, 84] = some [1, 84] ∧
    linearShape 84 10 [1, 84] = some [1, 10] ∧
    lenetShapeForward 10 [1, 1, 32, 32] = some [1, 10] :=
  claim1_shape_propagation 1 10 (by decide)

/-- C4: every `2 × 2` non-overlapping window of the pool input is reduced to
the exact sum of its 4 values; in particular the window `[1,2,3,4]` pools to
`10`, not `2.5` (average) and not `4` (max). -/
theorem claim4_pool_sum :
    (∀ (t : Mat) (i j : Nat), 2 * i + 1 < t.length →
      2 * j + 1 < (t.headD []).length →
      (∀ row ∈ t, row.length = (t.headD []).length) →
      (((lpPool2dP1 2 2 t).getD []).getD i []).getD j 0 =
        (t.getD (2 * i) []).getD (2 * j) 0 +
          (t.getD (2 * i) []).getD (2 * j + 1) 0 +
          ((t.getD (2 * i + 1) []).getD (2 * j) 0 +
            (t.getD (2 * i + 1) []).getD (2 * j + 1) 0)) ∧
    lpPool2dP1 2 2 [[1, 2], [3, 4]] = some [[10]] ∧
    lpPool2dP1 2 2 [[1, 2], [3, 4]] ≠ some [[5 / 2]] ∧
    lpPool2dP1 2 2 [[1, 2], [3, 4]] ≠ some [[4]] := by
  have h10 : lpPool2dP1 2 2 [[1, 2], [3, 4]] = some [[10]] := by
    simp [lpPool2dP1, windowSum, List.range_succ]
    norm_num
  refine ⟨?_, h10, by rw [h10]; simp; norm_num, by rw [h10]; simp⟩
  intro t i j hi hj hrect
  have h0 : 2 * i < t.length := by omega
  have hm0 : t.getD (2 * i) ([] : List ℚ) ∈ t := by
    rw [List.getD_eq_getElem _ _ h0]
    exact List.getElem_mem _
  have hm1 : t.getD (2 * i + 1) ([] : List ℚ) ∈ t := by
    rw [List.getD_eq_getElem _ _ hi]
    exact List.getElem_mem _
  have hc1 : 2 * j + 1 < (t.getD (2 * i) []).length := by
    rw [hrect _ hm0]; omega
  have hc2 : 2 * j + 1 < (t.getD (2 * i + 1) []).length := by
    rw [hrect _ hm1]; omega
  rw [lpPool2dP1_entry t i j hi hj, windowSum_two t (2 * i) (2 * j) hi hc1 hc2]

/-- Witness for C4's universally quantified part at the window `[[1,2],[3,4]]`,
`i = j = 0`. -/
theorem claim4_pool_sum_witness :
    (((lpPool2dP1 2 2 [[1, 2], [3, 4]]).getD []).getD 0 []).getD 0 0 =
      (([[1, 2], [3, 4]] : Mat).getD (2 * 0) []).getD (2 * 0) 0 +
        (([[1, 2], [3, 4]] : Mat).getD (2 * 0) []).getD (2 * 0 + 1) 0 +
        ((([[1, 2], [3, 4]] : Mat).getD (2 * 0 + 1) []).getD (2 * 0) 0 +
          (([[1, 2], [3, 4]] : Mat).getD (2 * 0 + 1) []).getD (2 * 0 + 1) 0) :=
  claim4_pool_sum.1 [[1, 2], [3, 4]] 0 0 (by decide) (by decide) (by decide)

/-- C5 (counterexample): invoking the network's own S2 stage,
`LenetPool(2, 2, 14, 14)`, on an input slice with odd spatial height `H = 15`
(width 28) raises no construction or validation error — it silently returns a
pooled output, whose height has been floored to 7. -/
theorem claim5_counterexample :
    (lenetPoolFwd 2 2 14 s2Weight s2Bias oddHeightInput).isSome = true ∧
    ((lenetPoolFwd 2 2 14 s2Weight s2Bias oddHeightInput).getD []).length = 7 := by
  constructor <;> decide

/-- C5 (amended): the pooling step performs no evenness validation at all —
whenever the `2 × 2` kernel fits, it succeeds on odd spatial dimensions too,
flooring the output height to `(H - 2) / 2 + 1` (so `7` rows for `H = 15`). -/
theorem claim5_amended_pool_floors (t : Mat)
    (hh : 2 ≤ t.length) (hw : 2 ≤ (t.headD []).length) :
    ∃ out : Mat, lpPool2dP1 2 2 t = some out ∧
      out.length = (t.length - 2) / 2 + 1 := by
  unfold lpPool2dP1
  rw [if_pos ⟨hh, hw⟩]
  exact ⟨_, rfl, by simp⟩

/-- Witness for C5's amended statement at the odd-height input `H = 15`. -/
theorem claim5_amended_pool_floors_witness :
    ∃ out : Mat, lpPool2dP1 2 2 oddHeightInput = some out ∧
      out.length = (oddHeightInput.length - 2) / 2 + 1 :=
  claim5_amended_pool_floors oddHeightInput (by decide) (by decide)

/-- C6 (counterexample): the S2 stage `LenetPool(2, 2, 14, 14)` on a
`(1, 6, 28, 28)` input yields shape `(1, 6, 14, 14)` — not `(batch,
out_features) = (1, 14)`; and a `LenetPool` whose `in_features` is the full
flattened post-pool size `6·14·14 = 1176` fails on that input, because the
remap consumes only the last dimension. -/
theorem claim6_counterexample :
    lenetPoolShape 2 2 14 14 [1, 6, 28, 28] = some [1, 6, 14, 14] ∧
    lenetPoolShape 2 2 14 14 [1, 6, 28, 28] ≠ some [1, 14] ∧
    lenetPoolShape 2 2 1176 14 [1, 6, 28, 28] = none := by
  refine ⟨by decide, by decide, by decide⟩

/-- C6 (amended): after the windowed-sum pooling step, the learned remap
(weights and bias) maps the *last spatial dimension* from the post-pool width
`(W - 2) / 2 + 1 = in_features` to `out_features`, so an input of shape
`(b, c, H, W)` produces output shape `(b, c, (H - 2) / 2 + 1, out_features)`. -/
theorem claim6_amended_last_dim_remap (b c h w inF outF : Nat)
    (hh : 2 ≤ h) (hw : 2 ≤ w) (hin : (w - 2) / 2 + 1 = inF) :
    lenetPoolShape 2 2 inF outF [b, c, h, w] =
      some [b, c, (h - 2) / 2 + 1, outF] := by
  subst hin
  simp [lenetPoolShape, lpPoolShape, linearShape, hh, hw]

/-- Witness for C6's amended statement at the S2 configuration. -/
theorem claim6_amended_last_dim_remap_witness :
    lenetPoolShape 2 2 14 14 [1, 6, 28, 28] =
      some [1, 6, (28 - 2) / 2 + 1, 14] :=
  claim6_amended_last_dim_remap 1 6 28 28 14 14 (by decide) (by decide)
    (by decide)

/-- C2: every component of the `LenetSigmoid` output lies strictly inside
`(-1.7159, 1.7159)`; it is zero whenever the corresponding component of the
linear-transformed input `S·x` is zero; the output component equals
`A · tanh` of the corresponding component of `S·x`, and that map is strictly
monotonically increasing. -/
theorem claim2_activation_range {b c h w m : Nat} (S : Fin m → Fin w → ℝ)
    (x : Ten4 b c h w) (bb : Fin b) (cc : Fin c) (i : Fin h) (o : Fin m) :
    (-1.7159 < lenetSigmoid4 S x bb cc i o ∧
      lenetSigmoid4 S x bb cc i o < 1.7159) ∧
    (linear4NoBias S x bb cc i o = 0 → lenetSigmoid4 S x bb cc i o = 0) ∧
    lenetSigmoid4 S x bb cc i o =
      A * Real.tanh (linear4NoBias S x bb cc i o) ∧
    StrictMono (fun t : ℝ => A * Real.tanh t) := by
  have heq : lenetSigmoid4 S x bb cc i o =
      A * Real.tanh (linear4NoBias S x bb cc i o) := rfl
  refine ⟨⟨?_, ?_⟩, ?_, heq, ?_⟩
  · rw [heq]
    have h1 := neg_one_lt_tanh (linear4NoBias S x bb cc i o)
    simp only [A]
    norm_num
    nlinarith
  · rw [heq]
    have h1 := tanh_lt_one (linear4NoBias S x bb cc i o)
    simp only [A]
    norm_num
    nlinarith
  · intro hz
    rw [heq, hz, Real.tanh_zero, mul_zero]
  · intro t t' htt
    exact (mul_lt_mul_left A_pos).2 (tanh_strictMono htt)

/-- Witness for C2 at `S = 0`, `x = 0` (so `S·x = 0`), all sizes 1. -/
theorem claim2_activation_range_witness :
    lenetSigmoid4 (b := 1) (c := 1) (h := 1) (w := 1) (m := 1)
      (fun _ _ => (0 : ℝ)) (fun _ _ _ _ => (0 : ℝ)) 0 0 0 0 = 0 :=
  (claim2_activation_range (b := 1) (c := 1) (h := 1) (w := 1) (m := 1)
      (fun _ _ => 0) (fun _ _ _ _ => 0) 0 0 0 0).2.1
    (by simp [linear4NoBias])

/-- C3: `LenetSigmoid.forward` computes exactly `A · tanh(S · x)` where `S` is
the learned square linear map with no additive bias and `A` is the fixed,
non-learned constant `1.7159`; no bias before the nonlinearity, no offset
after the scaling. -/
theorem claim3_forward_formula {b c h w m : Nat} (S : Fin m → Fin w → ℝ)
    (x : Ten4 b c h w) :
    lenetSigmoid4 S x = scaledActivationSpec S x ∧ A = 1.7159 :=
  ⟨rfl, rfl⟩

/-- C7: the network's output is the `f7` affine map applied to the `a6` stage
output with nothing after it, and `nn.Linear`'s action on any width-84 input
vector is exactly the manual affine transform `weight·input + bias`. -/
theorem claim7_final_linearity {b n : Nat} (p : LenetParams n)
    (x : Ten4 b 1 32 32) (wt : Fin n → Fin 84 → ℝ) (bs : Fin n → ℝ)
    (y : Ten2 b 84) :
    lenetForward p x = linear2 p.f7w p.f7b (lenetUpToA6 p x) ∧
    (∀ (bb : Fin b) (i : Fin n),
      linear2 wt bs y bb i = manualAffine wt bs (y bb) i) := by
  refine ⟨rfl, fun bb i => ?_⟩
  simp [linear2, manualAffine, add_comm]

/-- C8: with all parameters held fixed, two invocations of the forward pass
on the fixed all-zeros batch of shape `(1, 1, 32, 32)` give identical results
(the forward computation is a pure function of input and parameters), and the
output has shape `(1, num_classes)`. -/
theorem claim8_determinism (n : Nat) (p : LenetParams n) :
    lenetForward (b := 1) p (fun _ _ _ _ => 0) =
      lenetForward (b := 1) p (fun _ _ _ _ => 0) ∧
    lenetShapeForward n [1, 1, 32, 32] = some [1, n] := by
  refine ⟨rfl, ?_⟩
  simp [lenetShapeForward, conv2dShape, lenetSigmoidShape, lenetPoolShape,
    lpPoolShape, linearShape, flattenShape, Option.bind]

/-- C9 (counterexample): constructing the network with `num_classes = 0` — a
non-positive value — succeeds: every parameter allocation accepts a zero
dimension, so construction yields a usable instance rather than failing. -/
theorem claim9_counterexample : lenetInit 0 = some () := by decide

/-- C9 (amended): construction fails precisely for a *negative*
`num_classes`; `num_classes = 0` (output width 0) and positive values
construct successfully. -/
theorem claim9_amended_negative_rejected (m : Int) :
    lenetInit m = none ↔ m < 0 := by
  simp [lenetInit, conv2dInit, lenetSigmoidInit, lenetPoolInit, linearInit]

/-- C10: applying the network's layers one at a time, in the order
`run_tests` iterates `model.layers`, gives exactly the same function as a
single call to `Lenet.forward` (which is `nn.Sequential` of the same list). -/
theorem claim10_stagewise_refinement {b n : Nat} (p : LenetParams n)
    (x : Ten4 b 1 32 32) :
    runTestsForward p x = lenetForward p x := rfl

end Lenet
